import Mathlib

/-!
Shallow embedding of the gitleaks-style scanning core of this repository:
the leak data model (Leak, RedactLeak, NewLeak, Leak.URL from scan/leak.go),
the no-git tree scanner's per-file matching pipeline and its constructor
(scan/nogit.go), and the parent multi-repository scanner loop
(scan/parent.go), together with theorems settling the specification claims.

Go strings are modelled as Lean String values (lists of characters); Go's
strings.Replace with count -1, strings.Contains, strings.Join and
path/filepath.Base are embedded below. Go machine integers are modelled as
Int. Fallible Go calls are modelled with Except, external collaborators
(rule and allowlist predicates, go-git, the per-repository scanner) as
function-valued records, matching the interface contracts in the spec.
-/

set_option maxRecDepth 10000

/-- One fuel-bounded step of Go strings.Replace with count -1 and a
non-empty pattern: scan left to right, replacing each leftmost
non-overlapping occurrence of pat by rep and resuming after the
replaced occurrence. Fuel at least the length of the input makes the
fuel argument irrelevant. -/
def replaceCharsAux (pat rep : List Char) : Nat → List Char → List Char
  | _, [] => []
  | 0, s => s
  | fuel + 1, c :: cs =>
    if pat.isPrefixOf (c :: cs) then
      rep ++ replaceCharsAux pat rep fuel (List.drop (pat.length - 1) cs)
    else
      c :: replaceCharsAux pat rep fuel cs

/-- Go strings.Replace(s, pat, rep, -1) on character lists: for an empty
pattern the replacement is inserted before every character and after the
final one (Go matches the empty string at every boundary); otherwise each
leftmost non-overlapping occurrence of pat is replaced by rep. -/
def replaceChars (s pat rep : List Char) : List Char :=
  if pat = [] then rep ++ s.flatMap (fun c => c :: rep)
  else replaceCharsAux pat rep s.length s

/-- Go strings.Replace(s, pat, rep, -1) on String. -/
def stringsReplaceAll (s pat rep : String) : String :=
  String.mk (replaceChars s.data pat.data rep.data)

/-- Go strings.Contains on character lists. -/
def containsChars : List Char → List Char → Bool
  | [], pat => pat.isEmpty
  | c :: cs, pat => pat.isPrefixOf (c :: cs) || containsChars cs pat

/-- Go strings.Contains on String. -/
def stringsContains (s pat : String) : Bool :=
  containsChars s.data pat.data

/-- Go strings.Join. -/
def stringsJoin : List String → String → String
  | [], _ => ""
  | [s], _ => s
  | s :: rest, sep => s ++ sep ++ stringsJoin rest sep

/-- Go path/filepath.Base for slash-separated paths: an empty path yields
".", trailing separators are stripped, the last element is returned, and a
path consisting only of separators yields "/". -/
def filepathBase (p : String) : String :=
  if p = "" then "."
  else
    let r := p.data.reverse.dropWhile (fun c => c == '/')
    if r = [] then "/"
    else String.mk ((r.takeWhile (fun c => c != '/')).reverse)

/-- Go path/filepath.Join at the interface level for the slash-separated
paths used by the parent scanner. -/
def filepathJoin (a b : String) : String := a ++ "/" ++ b

/-- The Leak record (scan/leak.go): one finding. time.Time is modelled as
an integer timestamp; all other fields keep their Go types. -/
structure Leak where
  Line : String := ""
  LineNumber : Int := 0
  Offender : String := ""
  Commit : String := ""
  Repo : String := ""
  RepoURL : String := ""
  LeakURL : String := ""
  Rule : String := ""
  Message : String := ""
  Author : String := ""
  Email : String := ""
  File : String := ""
  Date : Int := 0
  Tags : String := ""
  deriving DecidableEq, Repr

/-- RedactLeak (scan/leak.go): replace the offending string with "REDACTED"
in both the offender and line fields of the leak. -/
def RedactLeak (leak : Leak) : Leak :=
  { leak with
      Line := stringsReplaceAll leak.Line leak.Offender "REDACTED"
      Offender := "REDACTED" }

/-- NewLeak (scan/leak.go): a leak from line, offender and line number; all
other fields are Go zero values. -/
def NewLeak (line offender : String) (lineNumber : Int) : Leak :=
  { Line := line, Offender := offender, LineNumber := lineNumber }

/-- Leak.URL (scan/leak.go): repoURL/blob/commit/file#L(lineNumber) when
RepoURL is set, otherwise the empty string. -/
def Leak.URL (leak : Leak) : String :=
  if leak.RepoURL ≠ "" then
    leak.RepoURL ++ "/blob/" ++ leak.Commit ++ "/" ++ leak.File ++ "#L" ++ toString leak.LineNumber
  else ""

/-- Allowlist matching capability consumed by the scanners (external config
package): per-file, per-path, per-content-regex and per-repository-name
allow predicates. -/
structure Allowlist where
  FileAllowed : String → Bool
  PathAllowed : String → Bool
  RegexAllowed : String → Bool
  RepoAllowed : String → Bool

/-- Rule matching capability consumed by the scanner (external config
package): content inspection returning the offending substring or "",
filename/path-only matching, scoping patterns (the String() form of the
compiled File and Path regexps) with their match predicates, and the
rule's own allowlist. -/
structure Rule where
  Description : String
  Tags : List String
  AllowList : Allowlist
  FilePattern : String
  PathPattern : String
  Inspect : String → String
  HasFileOrPathLeakOnly : String → Bool
  HasFileLeak : String → Bool
  HasFilePathLeak : String → Bool

/-- Scanner configuration: the global allowlist plus the rules. -/
structure Config where
  Allowlist : Allowlist
  Rules : List Rule

/-- Run options from the CLI (scan options). -/
structure Options where
  Path : String := ""
  Verbose : Bool := false
  Redact : Bool := false
  RepoConfigPath : String := ""

/-- Scanner type tag. -/
inductive ScannerType
  | typeGitScanner
  | typeNoGitScanner
  | typeDirScanner
  | typeRepoScanner
  deriving DecidableEq

/-- BaseScanner: shared configuration and run-options context. -/
structure BaseScanner where
  cfg : Config
  opts : Options
  scannerType : ScannerType := ScannerType.typeGitScanner

/-- Modelled from the spec: the sentinel line number marking a finding that
is not line-specific (the constant defaultLineNumber is declared in
repository code outside the provided sources). -/
def defaultLineNumber : Int := -1

/-- NoGitScanner (scan/nogit.go): a scanner for plain directory trees. -/
structure NoGitScanner extends BaseScanner

/-- NewNoGitScanner (scan/nogit.go): builds a no-git scanner, first
extending the allowlist so that .git folders are ignored by default. The
external IgnoreDotGit mutator is modelled as a fallible allowlist
transformer supplied by the caller; on failure the Go code logs the error
and returns nil, modelled as none. -/
def NewNoGitScanner (ignoreDotGit : Allowlist → Except String Allowlist)
    (base : BaseScanner) : Option NoGitScanner :=
  match ignoreDotGit base.cfg.Allowlist with
  | Except.error _ => none
  | Except.ok al =>
      some { toBaseScanner :=
        { base with
            scannerType := ScannerType.typeNoGitScanner
            cfg := { base.cfg with Allowlist := al } } }

namespace NoGitScanner

/-- One rule applied to one line of one file (scan/nogit.go Scan, content
loop body): inspect the line; skip on empty offender, on a global content
allow pattern, on the rule's own file or path allowlist, or when the rule
is scoped to a file or path pattern the current file does not satisfy;
otherwise build the leak record. -/
def emitRule (cfg : Config) (rule : Rule) (p line : String) (lineNumber : Int) : Option Leak :=
  let offender := rule.Inspect line
  if offender = "" then none
  else if cfg.Allowlist.RegexAllowed line || rule.AllowList.FileAllowed (filepathBase p)
      || rule.AllowList.PathAllowed p then none
  else if rule.FilePattern ≠ "" ∧ rule.HasFileLeak (filepathBase p) = false then none
  else if rule.PathPattern ≠ "" ∧ rule.HasFilePathLeak p = false then none
  else
    some { NewLeak line offender defaultLineNumber with
            File := p
            LineNumber := lineNumber
            Rule := rule.Description
            Tags := stringsJoin rule.Tags ", " }

/-- All configured rules applied to one line (scan/nogit.go Scan, inner
rule loop). -/
def scanLine (cfg : Config) (p line : String) (lineNumber : Int) : List Leak :=
  cfg.Rules.filterMap fun rule => emitRule cfg rule p line lineNumber

/-- The content loop of scan/nogit.go Scan: the line counter starts at 0
and is incremented before each line is inspected, so the i-th line
(0-based) is inspected with line number i+1. -/
def scanLines (cfg : Config) (p : String) : Int → List String → List Leak
  | _, [] => []
  | lineNumber, line :: rest =>
      scanLine cfg p line (lineNumber + 1) ++ scanLines cfg p (lineNumber + 1) rest

/-- The filename/path-only check for one rule (scan/nogit.go Scan, first
rule loop): a rule matching on filename or path alone yields a leak with
empty line, the sentinel line number and a descriptively prefixed
offender. -/
def pathLeakFor (rule : Rule) (p : String) : Option Leak :=
  if rule.HasFileOrPathLeakOnly p then
    some { NewLeak "" ("Filename or path offender: " ++ p) defaultLineNumber with
            File := p
            Rule := rule.Description
            Tags := stringsJoin rule.Tags ", " }
  else none

/-- The per-file matching task of scan/nogit.go Scan: skip the file
entirely when its base name or full path is allow-listed globally,
otherwise emit the filename/path-only leaks followed by the per-line
content leaks (the file content is modelled as its list of lines). -/
def scanFile (cfg : Config) (p : String) (lines : List String) : List Leak :=
  if cfg.Allowlist.FileAllowed (filepathBase p) || cfg.Allowlist.PathAllowed p then []
  else (cfg.Rules.filterMap fun rule => pathLeakFor rule p) ++ scanLines cfg p 0 lines

end NoGitScanner

/-- Follows the spec's words (refinement side of C2): a content match is
discarded exactly when the global content-based allow pattern matches the
line, or the rule's own file/path allowlist matches this file, or the rule
is scoped to a filename or path pattern the current file does not
satisfy. -/
def discardSpec (cfg : Config) (rule : Rule) (p line : String) : Bool :=
  cfg.Allowlist.RegexAllowed line
    || rule.AllowList.FileAllowed (filepathBase p)
    || rule.AllowList.PathAllowed p
    || (rule.FilePattern != "" && !rule.HasFileLeak (filepathBase p))
    || (rule.PathPattern != "" && !rule.HasFilePathLeak p)

/-- Follows the spec's words (refinement side of C2): the record built for
a content match carries the line text, the detected offending substring,
the 1-based line number of the match, the rule description, the
comma-joined tags and the file path. -/
def specContentLeak (rule : Rule) (p line : String) (lineNumber : Int) : Leak :=
  { Line := line
    Offender := rule.Inspect line
    LineNumber := lineNumber
    File := p
    Rule := rule.Description
    Tags := stringsJoin rule.Tags ", " }

/-- A repository handle (go-git), abstract. -/
structure Repo where
  repoId : Nat
  deriving DecidableEq

/-- One directory entry as returned by ioutil.ReadDir. -/
structure DirEntry where
  name : String
  isDir : Bool
  deriving DecidableEq

/-- Report: the aggregate result of a scan. -/
structure Report where
  Leaks : List Leak := []
  Commits : Int := 0
  deriving DecidableEq

/-- The external collaborators of ParentScanner.Scan: directory listing,
git.PlainOpen (whose distinguished failure message is
"repository does not exist"), config.LoadRepoConfig (modelled from the
spec as an abstract fallible configuration loader), and the
per-repository scanner NewRepoScanner(...).Scan() invoked with the
current base scanner state and the repository's display name (modelled
from the spec as an abstract fallible scan producing a Report). -/
structure ParentEnv where
  readDir : String → Except String (List DirEntry)
  plainOpen : String → Except String Repo
  loadRepoConfig : Repo → String → Except String Config
  repoScan : BaseScanner → String → Repo → Except String Report

/-- The loop of ParentScanner.Scan (scan/parent.go lines 36-70), threading
the mutable base scanner state (whose cfg a successful per-repository
configuration override replaces) and the accumulated report through the
strictly sequential iterations. -/
def parentScanLoop (env : ParentEnv) : BaseScanner → Report → List DirEntry → Except String Report
  | _, report, [] => Except.ok report
  | base, report, f :: rest =>
    if f.isDir = false then parentScanLoop env base report rest
    else
      match env.plainOpen (filepathJoin base.opts.Path f.name) with
      | Except.error e =>
        if e = "repository does not exist" then parentScanLoop env base report rest
        else Except.error e
      | Except.ok repo =>
        if base.cfg.Allowlist.RepoAllowed f.name then parentScanLoop env base report rest
        else
          let base' :=
            if base.opts.RepoConfigPath ≠ "" then
              match env.loadRepoConfig repo base.opts.RepoConfigPath with
              | Except.error _ => base
              | Except.ok c => { base with cfg := c }
            else base
          match env.repoScan base' f.name repo with
          | Except.error e => Except.error e
          | Except.ok repoReport =>
              parentScanLoop env base'
                { Leaks := report.Leaks ++ repoReport.Leaks
                  Commits := report.Commits + repoReport.Commits } rest

/-- ParentScanner.Scan (scan/parent.go): list the root directory, then run
the sequential per-directory loop starting from an empty report. -/
def parentScan (env : ParentEnv) (base : BaseScanner) : Except String Report :=
  match env.readDir base.opts.Path with
  | Except.error e => Except.error e
  | Except.ok files => parentScanLoop env base { Leaks := [], Commits := 0 } files

/-- The leak refuting C1 as stated: the offender "ED" occurs inside the
replacement marker "REDACTED" itself. -/
def c1Leak : Leak := { Line := "ED", Offender := "ED" }

/-- A leak whose line does not contain its offender, for the C1 witness. -/
def c1WitnessLeak : Leak := { Line := "ab", Offender := "x" }

/-- A leak with empty offender, for the C10 witness. -/
def c10WitnessLeak : Leak := { Line := "ab", Offender := "" }

/-- The record of the C6 example from the spec. -/
def c6Leak : Leak :=
  { RepoURL := "https://github.com/org/repo", Commit := "abc123", File := "a/b.go", LineNumber := 42 }

/-- An allowlist whose predicates all decline, for concrete witnesses. -/
def alNone : Allowlist :=
  { FileAllowed := fun _ => false
    PathAllowed := fun _ => false
    RegexAllowed := fun _ => false
    RepoAllowed := fun _ => false }

/-- An allowlist that allows every file name, for the C8 witness. -/
def alFileTrue : Allowlist :=
  { FileAllowed := fun _ => true
    PathAllowed := fun _ => false
    RegexAllowed := fun _ => false
    RepoAllowed := fun _ => false }

/-- A concrete content rule for witnesses. -/
def ruleContent : Rule :=
  { Description := "generic secret"
    Tags := ["key", "secret"]
    AllowList := alNone
    FilePattern := ""
    PathPattern := ""
    Inspect := fun line => if line = "password=hunter2" then "hunter2" else ""
    HasFileOrPathLeakOnly := fun _ => false
    HasFileLeak := fun _ => false
    HasFilePathLeak := fun _ => false }

/-- A concrete filename/path-only rule for the C5 witness. -/
def rulePath : Rule :=
  { Description := "aws credential file"
    Tags := ["aws"]
    AllowList := alNone
    FilePattern := ""
    PathPattern := ""
    Inspect := fun _ => ""
    HasFileOrPathLeakOnly := fun p => p == "x/credentials"
    HasFileLeak := fun _ => false
    HasFilePathLeak := fun _ => false }

/-- Configuration holding the content rule. -/
def cfgContent : Config := { Allowlist := alNone, Rules := [ruleContent] }

/-- Configuration holding the path-only rule. -/
def cfgPath : Config := { Allowlist := alNone, Rules := [rulePath] }

/-- Configuration whose global allowlist allows every file name. -/
def cfgAllow : Config := { Allowlist := alFileTrue, Rules := [ruleContent] }

/-- A plain configuration for the parent scanner witnesses. -/
def cfgA : Config := { Allowlist := alNone, Rules := [] }

/-- A distinct configuration returned by the override loader in the C7
witness. -/
def cfgB : Config := { Allowlist := alFileTrue, Rules := [] }

/-- A base scanner for the C9 witness and counterexample. -/
def baseC9 : BaseScanner := { cfg := cfgA, opts := {} }

/-- A parent environment whose repository open always fails fatally. -/
def envC3 : ParentEnv :=
  { readDir := fun _ => Except.ok []
    plainOpen := fun _ => Except.error "boom"
    loadRepoConfig := fun _ _ => Except.error "no config"
    repoScan := fun _ _ _ => Except.ok { Leaks := [], Commits := 0 } }

/-- A base scanner for the C3 witness. -/
def baseC3 : BaseScanner := { cfg := cfgA, opts := { Path := "/repos" } }

/-- Directory entries for the parent scanner witnesses. -/
def entryA : DirEntry := { name := "alpha", isDir := true }

/-- A second directory entry, showing that the C3 abort skips it. -/
def entryB : DirEntry := { name := "beta", isDir := true }

/-- A parent environment for the C7 witness: opening succeeds, the
repository-local configuration loads as cfgB, and the repository scan
reports five commits. -/
def envC7 : ParentEnv :=
  { readDir := fun _ => Except.ok []
    plainOpen := fun _ => Except.ok { repoId := 1 }
    loadRepoConfig := fun _ _ => Except.ok cfgB
    repoScan := fun _ _ _ => Except.ok { Leaks := [], Commits := 5 } }

/-- A base scanner with a per-repository configuration override path, for
the C7 witness. -/
def baseC7 : BaseScanner :=
  { cfg := cfgA, opts := { Path := "/r", RepoConfigPath := ".gitleaks.toml" } }

/-- A prefix of a character list followed by the rest of that list is the
whole list. -/
theorem prefixOf_append_drop {p l : List Char} (h : p.isPrefixOf l = true) :
    p ++ List.drop p.length l = l := by
  induction p generalizing l with
  | nil => simp
  | cons a ps ih =>
    cases l with
    | nil => simp [List.isPrefixOf] at h
    | cons b bs =>
      simp only [List.isPrefixOf, Bool.and_eq_true, beq_iff_eq] at h
      obtain ⟨rfl, h2⟩ := h
      simp [List.length_cons, List.drop_succ_cons, ih h2]

/-- Replacing a non-empty pattern by itself is the identity (fuel-bounded
core). -/
theorem replaceCharsAux_self (pat : List Char) (hp : pat ≠ []) :
    ∀ (fuel : Nat) (s : List Char), s.length ≤ fuel → replaceCharsAux pat pat fuel s = s := by
  intro fuel
  induction fuel with
  | zero =>
    intro s hs
    cases s with
    | nil => rfl
    | cons c cs => simp at hs
  | succ n ih =>
    intro s hs
    cases s with
    | nil => rfl
    | cons c cs =>
      simp only [replaceCharsAux]
      by_cases h : pat.isPrefixOf (c :: cs) = true
      · rw [if_pos h]
        have hlen : (List.drop (pat.length - 1) cs).length ≤ n := by
          rw [List.length_drop]
          simp only [List.length_cons] at hs
          omega
        rw [ih _ hlen]
        cases pat with
        | nil => exact absurd rfl hp
        | cons a as =>
          have hd := prefixOf_append_drop h
          simpa [List.length_cons, List.drop_succ_cons] using hd
      · rw [if_neg h]
        have hlen : cs.length ≤ n := by
          simp only [List.length_cons] at hs
          omega
        rw [ih _ hlen]

/-- When the pattern does not occur in the input, replacement is the
identity (fuel-bounded core). -/
theorem replaceCharsAux_of_not_contains (pat rep : List Char) :
    ∀ (fuel : Nat) (s : List Char), containsChars s pat = false →
      replaceCharsAux pat rep fuel s = s := by
  intro fuel
  induction fuel with
  | zero =>
    intro s _
    cases s with
    | nil => rfl
    | cons c cs => rfl
  | succ n ih =>
    intro s h
    cases s with
    | nil => rfl
    | cons c cs =>
      simp only [containsChars, Bool.or_eq_false_iff] at h
      obtain ⟨h1, h2⟩ := h
      simp only [replaceCharsAux, h1, Bool.false_eq_true, if_false]
      rw [ih _ h2]

/-- A String is its own character data repacked. -/
theorem string_mk_data (s : String) : String.mk s.data = s := by
  cases s
  rfl

/-- A String other than the empty string has non-empty data. -/
theorem string_data_ne_nil {s : String} (h : s ≠ "") : s.data ≠ [] := by
  intro hd
  apply h
  cases s
  simp only [String.data] at hd
  simp [hd]

/-- Replacing every occurrence of a non-empty pattern by itself gives the
string back. -/
theorem stringsReplaceAll_self_id (s pat : String) (hp : pat ≠ "") :
    stringsReplaceAll s pat pat = s := by
  have hp' : pat.data ≠ [] := string_data_ne_nil hp
  unfold stringsReplaceAll replaceChars
  rw [if_neg hp', replaceCharsAux_self pat.data hp' _ _ le_rfl]


/-- Length of interleaving a fixed list after every element. -/
theorem length_bind_cons (rep : List Char) :
    ∀ l : List Char, (l.flatMap fun c => c :: rep).length = l.length * (rep.length + 1) := by
  intro l
  induction l with
  | nil => simp
  | cons c cs ih =>
    simp only [List.flatMap_cons, List.length_append, List.length_cons, ih]
    ring

/-- Leaks produced for the i-th line (0-based) of the content loop carry
line number counter + i + 1 and belong to the loop's output. -/
theorem mem_scanLines (cfg : Config) (p : String) :
    ∀ (lines : List String) (n : Int) (i : Nat) (hi : i < lines.length) (leak : Leak),
      leak ∈ NoGitScanner.scanLine cfg p (lines.get ⟨i, hi⟩) (n + (i : Int) + 1) →
      leak ∈ NoGitScanner.scanLines cfg p n lines := by
  intro lines
  induction lines with
  | nil =>
    intro n i hi
    simp at hi
  | cons l rest ih =>
    intro n i hi leak hmem
    cases i with
    | zero =>
      simp only [NoGitScanner.scanLines]
      apply List.mem_append_left
      simpa using hmem
    | succ j =>
      simp only [NoGitScanner.scanLines]
      apply List.mem_append_right
      have hj : j < rest.length := by
        simp only [List.length_cons] at hi
        omega
      apply ih (n + 1) j hj
      have harith : n + ((j : Int) + 1) + 1 = n + 1 + (j : Int) + 1 := by ring
      simp only [List.get_cons_succ] at hmem
      push_cast at hmem
      rw [harith] at hmem
      exact hmem

/-- With a non-empty offending substring, the content loop body emits
nothing exactly when one of the discard conditions holds. -/
theorem emitRule_none_iff (cfg : Config) (rule : Rule) (p line : String) (n : Int)
    (hoff : rule.Inspect line ≠ "") :
    NoGitScanner.emitRule cfg rule p line n = none ↔ discardSpec cfg rule p line = true := by
  simp only [NoGitScanner.emitRule, discardSpec]
  rw [if_neg hoff]
  split_ifs with h1 h2 h3 <;>
    simp_all [Bool.or_eq_true, Bool.and_eq_true, bne_iff_ne, Bool.not_eq_true']

/-- With a non-empty offending substring and no discard condition, the
content loop body emits exactly the record described by the spec. -/
theorem emitRule_some_of_not_discard (cfg : Config) (rule : Rule) (p line : String) (n : Int)
    (hoff : rule.Inspect line ≠ "")
    (hd : discardSpec cfg rule p line = false) :
    NoGitScanner.emitRule cfg rule p line n = some (specContentLeak rule p line n) := by
  simp only [discardSpec, Bool.or_eq_false_iff, Bool.and_eq_false_iff,
    bne_eq_false_iff_eq, Bool.not_eq_false'] at hd
  obtain ⟨⟨⟨⟨ha, hb⟩, hc⟩, hdd⟩, he⟩ := hd
  have hF : ¬(rule.FilePattern ≠ "" ∧ rule.HasFileLeak (filepathBase p) = false) := by
    rintro ⟨hf1, hf2⟩
    rcases hdd with hx | hx
    · exact hf1 hx
    · rw [hx] at hf2
      simp at hf2
  have hP : ¬(rule.PathPattern ≠ "" ∧ rule.HasFilePathLeak p = false) := by
    rintro ⟨hp1, hp2⟩
    rcases he with hx | hx
    · exact hp1 hx
    · rw [hx] at hp2
      simp at hp2
  simp only [NoGitScanner.emitRule]
  rw [if_neg hoff, if_neg (by simp [ha, hb, hc]), if_neg hF, if_neg hP]
  rfl

/-- C1 counterexample: for the leak with line "ED" and offender "ED" (a
non-empty offender), the redacted line is "REDACTED", which still contains
the original offender substring, refuting the claim as stated. -/
theorem redactLeak_c1_counterexample :
    c1Leak.Offender ≠ "" ∧
    stringsContains (RedactLeak c1Leak).Line c1Leak.Offender = true := by
  decide

/-- C1 (amended): for every leak with non-empty offender, RedactLeak sets
the offender to the literal "REDACTED" and replaces every leftmost
non-overlapping occurrence of the original offender in the line by
"REDACTED" (the result can still contain the offender when the marker
itself or its junctions with the surrounding text reproduce it); if the
line never contained the offender, the line is unchanged. The input record
is a pure value and is not mutated. -/
theorem redactLeak_nonempty_offender (r : Leak) (h : r.Offender ≠ "") :
    (RedactLeak r).Offender = "REDACTED" ∧
    (RedactLeak r).Line = stringsReplaceAll r.Line r.Offender "REDACTED" ∧
    (stringsContains r.Line r.Offender = false → (RedactLeak r).Line = r.Line) := by
  refine ⟨rfl, rfl, fun hc => ?_⟩
  have hc' : containsChars r.Line.data r.Offender.data = false := hc
  have hp : r.Offender.data ≠ [] := string_data_ne_nil h
  show stringsReplaceAll r.Line r.Offender "REDACTED" = r.Line
  unfold stringsReplaceAll replaceChars
  rw [if_neg hp, replaceCharsAux_of_not_contains _ _ _ _ hc']

/-- C1 witness: a concrete leak with non-empty offender "x" and line "ab"
not containing it keeps its line and gets offender "REDACTED". -/
theorem redactLeak_nonempty_offender_witness :
    (RedactLeak c1WitnessLeak).Offender = "REDACTED" ∧
    (RedactLeak c1WitnessLeak).Line = c1WitnessLeak.Line :=
  ⟨(redactLeak_nonempty_offender c1WitnessLeak (by decide)).1,
   (redactLeak_nonempty_offender c1WitnessLeak (by decide)).2.2 (by decide)⟩

/-- C4: RedactLeak is idempotent: redacting twice equals redacting once,
because the second pass replaces "REDACTED" by itself. -/
theorem redactLeak_idempotent (r : Leak) : RedactLeak (RedactLeak r) = RedactLeak r := by
  have h : stringsReplaceAll (stringsReplaceAll r.Line r.Offender "REDACTED") "REDACTED" "REDACTED"
      = stringsReplaceAll r.Line r.Offender "REDACTED" :=
    stringsReplaceAll_self_id _ "REDACTED" (by decide)
  simp [RedactLeak, h]

/-- C10: for every leak whose offender is the empty string, RedactLeak
still sets the offender to "REDACTED" and transforms the line by inserting
"REDACTED" before every character and at the end, so the redacted line
differs from the original whenever the original line is non-empty. -/
theorem redactLeak_empty_offender (r : Leak) (h : r.Offender = "") :
    (RedactLeak r).Offender = "REDACTED" ∧
    (RedactLeak r).Line.data
      = "REDACTED".data ++ (r.Line.data.flatMap fun c => c :: "REDACTED".data) ∧
    (r.Line ≠ "" → (RedactLeak r).Line ≠ r.Line) := by
  have hd : r.Offender.data = [] := by rw [h]
  have h2 : (RedactLeak r).Line.data
      = "REDACTED".data ++ (r.Line.data.flatMap fun c => c :: "REDACTED".data) := by
    show (stringsReplaceAll r.Line r.Offender "REDACTED").data = _
    unfold stringsReplaceAll replaceChars
    rw [if_pos hd]
  refine ⟨rfl, h2, fun _ heq => ?_⟩
  have heq' := congrArg String.data heq
  have hlen := congrArg List.length (h2.symm.trans heq')
  rw [List.length_append, length_bind_cons] at hlen
  have hL : ("REDACTED".data).length = 8 := rfl
  rw [hL] at hlen
  omega

/-- C10 witness: the concrete leak with line "ab" and empty offender gets
offender "REDACTED" and a changed line. -/
theorem redactLeak_empty_offender_witness :
    (RedactLeak c10WitnessLeak).Offender = "REDACTED" ∧
    (RedactLeak c10WitnessLeak).Line ≠ c10WitnessLeak.Line :=
  ⟨(redactLeak_empty_offender c10WitnessLeak rfl).1,
   (redactLeak_empty_offender c10WitnessLeak rfl).2.2 (by decide)⟩

/-- C6: URL is empty when RepoURL is empty, and otherwise is exactly
repoURL/blob/commit/file#L(lineNumber), with no escaping of path
segments. -/
theorem leak_url_spec (r : Leak) :
    (r.RepoURL = "" → r.URL = "") ∧
    (r.RepoURL ≠ "" →
      r.URL = r.RepoURL ++ "/blob/" ++ r.Commit ++ "/" ++ r.File ++ "#L" ++ toString r.LineNumber) := by
  constructor
  · intro h
    unfold Leak.URL
    rw [if_neg (fun hn => hn h)]
  · intro h
    unfold Leak.URL
    rw [if_pos h]

/-- C6 witness: the spec's example record yields the expected URL, and a
record with empty RepoURL yields the empty string. -/
theorem leak_url_spec_witness :
    c6Leak.URL = "https://github.com/org/repo/blob/abc123/a/b.go#L42" ∧
    ({} : Leak).URL = "" := by
  constructor
  · have h := (leak_url_spec c6Leak).2 (by decide)
    rw [h]
    decide
  · exact (leak_url_spec {}).1 rfl

/-- C2: in the per-line matching of the tree scanner, for a file line and
a configured rule whose inspection returns a non-empty offending
substring, the match is discarded exactly when the global content allow
pattern matches, the rule's own file/path allowlist matches this file, or
the rule is scoped to a pattern this file does not satisfy; otherwise the
emitted record carries the line text, the offending substring, the
1-based line number of the match, the rule description and the
comma-joined tags, and belongs to the file's scan output. -/
theorem noGitScan_content_rule (cfg : Config) (p : String) (lines : List String)
    (i : Nat) (rule : Rule) (hi : i < lines.length) (hr : rule ∈ cfg.Rules)
    (hfile : (cfg.Allowlist.FileAllowed (filepathBase p) || cfg.Allowlist.PathAllowed p) = false)
    (hoff : rule.Inspect (lines.get ⟨i, hi⟩) ≠ "") :
    (NoGitScanner.emitRule cfg rule p (lines.get ⟨i, hi⟩) ((i : Int) + 1) = none ↔
        discardSpec cfg rule p (lines.get ⟨i, hi⟩) = true) ∧
    (discardSpec cfg rule p (lines.get ⟨i, hi⟩) = false →
        NoGitScanner.emitRule cfg rule p (lines.get ⟨i, hi⟩) ((i : Int) + 1)
          = some (specContentLeak rule p (lines.get ⟨i, hi⟩) ((i : Int) + 1)) ∧
        specContentLeak rule p (lines.get ⟨i, hi⟩) ((i : Int) + 1)
          ∈ NoGitScanner.scanFile cfg p lines) := by
  constructor
  · exact emitRule_none_iff cfg rule p _ _ hoff
  · intro hd
    refine ⟨emitRule_some_of_not_discard cfg rule p _ _ hoff hd, ?_⟩
    simp only [NoGitScanner.scanFile]
    rw [if_neg (by simp [hfile])]
    apply List.mem_append_right
    apply mem_scanLines cfg p lines 0 i hi
    have harith : (0 : Int) + (i : Int) + 1 = (i : Int) + 1 := by ring
    rw [harith]
    simp only [NoGitScanner.scanLine]
    exact List.mem_filterMap.mpr
      ⟨rule, hr, emitRule_some_of_not_discard cfg rule p _ _ hoff hd⟩

/-- C2 witness: a concrete configuration with one content rule on a
one-line file produces the spec-described record at line number 1. -/
theorem noGitScan_content_rule_witness :
    specContentLeak ruleContent "d/f.txt" "password=hunter2" 1
      ∈ NoGitScanner.scanFile cfgContent "d/f.txt" ["password=hunter2"] := by
  have h := (noGitScan_content_rule cfgContent "d/f.txt" ["password=hunter2"] 0 ruleContent
      (by decide) (List.Mem.head _) (by decide) (by decide)).2 (by decide)
  simpa using h.2

/-- C5: for every file whose name or path is not globally allow-listed and
every configured rule matching on filename or path alone, the scan output
contains a record with empty line text, the sentinel line number, the
matched path as offender prefixed descriptively, and the rule's
description and comma-joined tags. -/
theorem noGitScan_pathOnly_rule (cfg : Config) (p : String) (lines : List String) (rule : Rule)
    (hr : rule ∈ cfg.Rules)
    (hfile : (cfg.Allowlist.FileAllowed (filepathBase p) || cfg.Allowlist.PathAllowed p) = false)
    (hm : rule.HasFileOrPathLeakOnly p = true) :
    ∃ leak ∈ NoGitScanner.scanFile cfg p lines,
      leak.Line = "" ∧ leak.LineNumber = defaultLineNumber ∧
      leak.Offender = "Filename or path offender: " ++ p ∧
      leak.Rule = rule.Description ∧ leak.Tags = stringsJoin rule.Tags ", " ∧
      leak.File = p := by
  refine ⟨{ NewLeak "" ("Filename or path offender: " ++ p) defaultLineNumber with
            File := p
            Rule := rule.Description
            Tags := stringsJoin rule.Tags ", " }, ?_, rfl, rfl, rfl, rfl, rfl, rfl⟩
  simp only [NoGitScanner.scanFile]
  rw [if_neg (by simp [hfile])]
  apply List.mem_append_left
  exact List.mem_filterMap.mpr ⟨rule, hr, by simp [NoGitScanner.pathLeakFor, hm]⟩

/-- C5 witness: a concrete path-only rule on the file x/credentials emits
the sentinel record. -/
theorem noGitScan_pathOnly_rule_witness :
    ∃ leak ∈ NoGitScanner.scanFile cfgPath "x/credentials" [],
      leak.Line = "" ∧ leak.LineNumber = defaultLineNumber ∧
      leak.Offender = "Filename or path offender: " ++ "x/credentials" ∧
      leak.Rule = rulePath.Description ∧ leak.Tags = stringsJoin rulePath.Tags ", " ∧
      leak.File = "x/credentials" :=
  noGitScan_pathOnly_rule cfgPath "x/credentials" [] rulePath (List.Mem.head _)
    (by decide) (by decide)

/-- C8: a file whose base name or full path is allow-listed globally
contributes no leak records at all, regardless of its content. -/
theorem noGitScan_allowlisted_file (cfg : Config) (p : String) (lines : List String)
    (hfile : cfg.Allowlist.FileAllowed (filepathBase p) = true ∨
      cfg.Allowlist.PathAllowed p = true) :
    NoGitScanner.scanFile cfg p lines = [] := by
  simp only [NoGitScanner.scanFile]
  rw [if_pos]
  rcases hfile with h | h <;> simp [h]

/-- C8 witness: a configuration allow-listing every file name yields no
records on a file whose content matches the configured rule. -/
theorem noGitScan_allowlisted_file_witness :
    NoGitScanner.scanFile cfgAllow "d/f.txt" ["password=hunter2"] = [] :=
  noGitScan_allowlisted_file cfgAllow "d/f.txt" ["password=hunter2"] (Or.inl rfl)

/-- C9 counterexample: two constructions whose allowlist extension fails
with different causes are indistinguishable to the caller: both return
none, so the caller observes the failure but cannot observe its cause
(the error is only logged inside the constructor). -/
theorem newNoGitScanner_c9_counterexample :
    NewNoGitScanner (fun _ => Except.error "cause A") baseC9
      = NewNoGitScanner (fun _ => Except.error "cause B") baseC9 ∧
    NewNoGitScanner (fun _ => Except.error "cause A") baseC9 = none :=
  ⟨rfl, rfl⟩

/-- C9 (amended): construction applies the allowlist extension before any
scan: on success the returned scanner carries the extended allowlist; when
the extension cannot be applied the caller receives none (no usable
scanner) and so observes the failure, while the error's cause is only
logged inside the constructor, not returned. -/
theorem newNoGitScanner_spec (ignoreDotGit : Allowlist → Except String Allowlist)
    (base : BaseScanner) :
    (∀ e, ignoreDotGit base.cfg.Allowlist = Except.error e →
        NewNoGitScanner ignoreDotGit base = none) ∧
    (∀ al, ignoreDotGit base.cfg.Allowlist = Except.ok al →
        NewNoGitScanner ignoreDotGit base
          = some { toBaseScanner :=
              { base with
                  scannerType := ScannerType.typeNoGitScanner
                  cfg := { base.cfg with Allowlist := al } } }) := by
  constructor
  · intro e he
    simp [NewNoGitScanner, he]
  · intro al hal
    simp [NewNoGitScanner, hal]

/-- C9 witness: a failing extension yields none; a succeeding (identity)
extension yields the scanner tagged as a no-git scanner with the returned
allowlist installed. -/
theorem newNoGitScanner_spec_witness :
    NewNoGitScanner (fun _ => Except.error "boom") baseC9 = none ∧
    NewNoGitScanner (fun al => Except.ok al) baseC9
      = some { toBaseScanner :=
          { baseC9 with
              scannerType := ScannerType.typeNoGitScanner
              cfg := { baseC9.cfg with Allowlist := baseC9.cfg.Allowlist } } } :=
  ⟨(newNoGitScanner_spec (fun _ => Except.error "boom") baseC9).1 "boom" rfl,
   (newNoGitScanner_spec (fun al => Except.ok al) baseC9).2 baseC9.cfg.Allowlist rfl⟩

/-- C3: in the parent scanner's sequential loop, a directory whose
repository-open attempt fails with the distinguished "repository does not
exist" condition is skipped and the loop continues; any other open error
aborts the scan and is returned immediately, with no further iterations
performed. -/
theorem parentScan_openError (env : ParentEnv) (base : BaseScanner) (report : Report)
    (f : DirEntry) (rest : List DirEntry) (hdir : f.isDir = true) :
    (env.plainOpen (filepathJoin base.opts.Path f.name)
        = Except.error "repository does not exist" →
      parentScanLoop env base report (f :: rest) = parentScanLoop env base report rest) ∧
    (∀ e, env.plainOpen (filepathJoin base.opts.Path f.name) = Except.error e →
      e ≠ "repository does not exist" →
      parentScanLoop env base report (f :: rest) = Except.error e) := by
  constructor
  · intro h
    simp [parentScanLoop, hdir, h]
  · intro e h hne
    simp [parentScanLoop, hdir, h, hne]

/-- C3 witness: with an environment whose open always fails with "boom",
the loop over two directories aborts at the first with exactly that
error. -/
theorem parentScan_openError_witness :
    parentScanLoop envC3 baseC3 { Leaks := [], Commits := 0 } [entryA, entryB]
      = Except.error "boom" :=
  (parentScan_openError envC3 baseC3 { Leaks := [], Commits := 0 } entryA [entryB] rfl).2
    "boom" rfl (by decide)

/-- C7: when a per-repository configuration override path is supplied, a
failing load leaves the currently active configuration in place for this
repository's scan and the remaining iterations, while a successful load
replaces the shared base scanner configuration for this repository's scan
and all subsequent iterations. -/
theorem parentScan_configOverride (env : ParentEnv) (base : BaseScanner) (report : Report)
    (f : DirEntry) (rest : List DirEntry) (repo : Repo)
    (hdir : f.isDir = true)
    (hopen : env.plainOpen (filepathJoin base.opts.Path f.name) = Except.ok repo)
    (hallow : base.cfg.Allowlist.RepoAllowed f.name = false)
    (hpath : base.opts.RepoConfigPath ≠ "") :
    (∀ e, env.loadRepoConfig repo base.opts.RepoConfigPath = Except.error e →
        parentScanLoop env base report (f :: rest)
          = match env.repoScan base f.name repo with
            | Except.error e2 => Except.error e2
            | Except.ok rr =>
                parentScanLoop env base
                  { Leaks := report.Leaks ++ rr.Leaks
                    Commits := report.Commits + rr.Commits } rest) ∧
    (∀ c, env.loadRepoConfig repo base.opts.RepoConfigPath = Except.ok c →
        parentScanLoop env base report (f :: rest)
          = match env.repoScan { base with cfg := c } f.name repo with
            | Except.error e2 => Except.error e2
            | Except.ok rr =>
                parentScanLoop env { base with cfg := c }
                  { Leaks := report.Leaks ++ rr.Leaks
                    Commits := report.Commits + rr.Commits } rest) := by
  constructor
  · intro e he
    simp [parentScanLoop, hdir, hopen, hallow, hpath, he]
  · intro c hc
    simp [parentScanLoop, hdir, hopen, hallow, hpath, hc]

/-- C7 witness: with a loader returning cfgB and a repository scan
reporting five commits, the loop over one directory succeeds with those
five commits, the scan having run under the overriding configuration. -/
theorem parentScan_configOverride_witness :
    parentScanLoop envC7 baseC7 { Leaks := [], Commits := 0 } [entryA]
      = Except.ok { Leaks := [], Commits := 5 } := by
  have h := (parentScan_configOverride envC7 baseC7 { Leaks := [], Commits := 0 }
      entryA [] { repoId := 1 } rfl rfl rfl (by decide)).2 cfgB rfl
  exact h.trans rfl
